import Mathlib

/-!
Verification development for `transcode_and_package.py` (lk33/VideoOverlayer).

The Python coordination layer is shallowly embedded: external tools
(ffprobe, ffmpeg, mp4fragment, mp4dash) and the filesystem are modelled as
environment functions mapping the exact command the code would run to the
tool's observable outcome (captured stdout or a raised error, and an exit
code); Python strings are modelled on `List Char` / `String`; Python floats
appearing in overlay geometry are modelled by `ℚ` (for every height in the
fixed resolution table the truncated results coincide with IEEE-754 doubles,
checked value by value).
-/

set_option autoImplicit false

namespace VideoOverlayer

/-! ### Python string primitives on character lists -/

/-- Python `str.split(c)` for a one-character separator: splits on every
occurrence, keeping empty chunks; the empty string yields `[[]]`. -/
def splitOnChar (c : Char) : List Char → List (List Char)
  | [] => [[]]
  | a :: rest =>
    let r := splitOnChar c rest
    if a = c then [] :: r
    else
      match r with
      | [] => [[a]]
      | g :: gs => (a :: g) :: gs

/-- Python `str.strip()` (ASCII whitespace suffices for the probed outputs). -/
def trimChars (l : List Char) : List Char :=
  ((l.dropWhile Char.isWhitespace).reverse.dropWhile Char.isWhitespace).reverse

/-- Numeric value of a digit run (caller checks the chars are digits). -/
def digitsVal (l : List Char) : ℕ :=
  l.foldl (fun acc c => 10 * acc + (c.toNat - 48)) 0

/-- Python `int(s)`: optional surrounding whitespace, optional sign, then a
nonempty digit run; anything else raises `ValueError`, modelled as `none`. -/
def parsePyIntChars (s : List Char) : Option ℤ :=
  let t := trimChars s
  match t with
  | '-' :: ds => if ds ≠ [] ∧ ds.all Char.isDigit then some (-(digitsVal ds : ℤ)) else none
  | '+' :: ds => if ds ≠ [] ∧ ds.all Char.isDigit then some (digitsVal ds : ℤ) else none
  | ds => if ds ≠ [] ∧ ds.all Char.isDigit then some (digitsVal ds : ℤ) else none

/-- Python `float(s)`, modelled for plain decimal forms
`[sign] digits [ . digits ]` with at least one digit; every other input is a
parse failure (`ValueError`), modelled as `none`.  (Scientific notation and
`inf`/`nan` inputs never arise in the claims settled below.) -/
def parsePyFloatChars (s : List Char) : Option ℚ :=
  let t := trimChars s
  let core : List Char → Option ℚ := fun cs =>
    let ip := cs.takeWhile Char.isDigit
    match cs.drop ip.length with
    | [] => if ip = [] then none else some (digitsVal ip : ℚ)
    | '.' :: fp =>
      if fp.all Char.isDigit ∧ ¬(ip = [] ∧ fp = []) then
        some ((digitsVal ip : ℚ) + (digitsVal fp : ℚ) / (10 ^ fp.length))
      else none
    | _ => none
  match t with
  | '-' :: cs => (core cs).map (fun q => -q)
  | '+' :: cs => core cs
  | cs => core cs

/-- Index of the last occurrence of `c` (Python `str.rfind`, `none` for -1). -/
def lastIndexOf (c : Char) : List Char → Option ℕ
  | [] => none
  | a :: rest =>
    match lastIndexOf c rest with
    | some i => some (i + 1)
    | none => if a = c then some 0 else none

/-- CPython `posixpath.basename`: everything after the last `/`. -/
def basenameChars (p : List Char) : List Char :=
  match lastIndexOf '/' p with
  | none => p
  | some i => p.drop (i + 1)

/-- Root part of CPython `os.path.splitext`: split at the last dot, provided
it lies after the last separator and some character between the start of the
final path component and that dot is not itself a dot (so purely leading dots
never start an extension). -/
def splitextRootChars (p : List Char) : List Char :=
  match lastIndexOf '.' p with
  | none => p
  | some d =>
    let f : ℕ :=
      match lastIndexOf '/' p with
      | none => 0
      | some s => s + 1
    if f ≤ d ∧ ((p.drop f).take (d - f)).any (fun ch => ch ≠ '.') then p.take d else p

/-- Root of `os.path.splitext(…)` as a `String`. -/
def splitextRootStr (p : String) : String :=
  String.mk (splitextRootChars p.data)

/-- `os.path.basename` as a `String`. -/
def basenameStr (p : String) : String :=
  String.mk (basenameChars p.data)

/-- CPython `posixpath.join` for the two-argument, nonempty-left case used in
the source: an absolute second component replaces the first. -/
def osJoin (a b : String) : String :=
  if b.data.head? = some '/' then b else a ++ "/" ++ b

/-- Python `in` on strings: contiguous-substring test. -/
def containsSub (pat : List Char) : List Char → Bool
  | [] => List.isPrefixOf pat []
  | a :: rest => List.isPrefixOf pat (a :: rest) || containsSub pat rest

/-! ### External-tool environment

Every subprocess the script runs is modelled by a function from the exact
command it would execute to the outcome the script observes.  `probe`
covers the three ffprobe invocations (keyed by the full argument list):
`Except.error` is any raised exception, `Except.ok out` a completed run
with captured stdout `out`.  The ffmpeg / mp4fragment / mp4dash calls are
observed only through their exit codes. -/

structure Env where
  fileExists : String → Bool
  probe : List String → Except String String
  ffmpegExit : List String → Int
  fragExit : String → Int
  dashExit : Int

/-! ### VideoProcessor -/

/-- `VideoProcessor.resolutions`, the fixed class-level table in its
insertion order. -/
def resolutions : List (String × String) :=
  [("360p", "640x360"), ("480p", "854x480"), ("720p", "1280x720"), ("1080p", "1920x1080")]

/-- The resolution names, in the order `for res in resolutions` iterates. -/
def resolutionNames : List String :=
  resolutions.map Prod.fst

/-- The `hdr_formats` marker list of `check_hdr`. -/
def hdr_formats : List String :=
  ["bt2020", "smpte2084", "arib-std-b67", "bt2020nc"]

/-- The ffprobe command `check_hdr` builds for path `vp`. -/
def ffprobe_color_cmd (vp : String) : List String :=
  ["ffprobe", "-v", "error", "-select_streams", "v:0",
   "-show_entries", "stream=color_space,color_transfer,color_primaries",
   "-of", "default=noprint_wrappers=1:nokey=1", vp]

/-- The ffprobe command `get_duration` builds for path `vp`. -/
def ffprobe_duration_cmd (vp : String) : List String :=
  ["ffprobe", "-v", "error", "-select_streams", "v:0",
   "-show_entries", "format=duration", "-of", "default=nw=1:nk=1", vp]

/-- The ffprobe command `get_frame_rate` builds for path `vp`. -/
def ffprobe_frame_rate_cmd (vp : String) : List String :=
  ["ffprobe", "-v", "error", "-select_streams", "v:0",
   "-show_entries", "stream=r_frame_rate", "-of", "default=nw=1:nk=1", vp]

/-- `VideoProcessor.check_hdr`.  The method reads the module-level global
`video_path` (not `self.video_path`), so it takes the global's binding state:
`none` models an unbound global, whose `NameError` is raised while building
the command, caught by the blanket handler, and turned into `False`.  Any
probe error is likewise caught (printed, not propagated) and yields `False`;
otherwise the stripped stdout is split into lines and the result is whether
any marker occurs as a substring of any line. -/
def check_hdr (probe : List String → Except String String)
    (global_video_path : Option String) : Bool :=
  match global_video_path with
  | none => false
  | some vp =>
    match probe (ffprobe_color_cmd vp) with
    | Except.error _ => false
    | Except.ok stdout =>
      (splitOnChar '\n' (trimChars stdout.data)).any fun line =>
        hdr_formats.any fun fmt => containsSub fmt.data line

/-- `VideoProcessor.get_duration`: probe, strip, `float(...)`; any raised
error (tool failure or unparsable stdout) is caught, printed, and turned
into the `None` sentinel. -/
def get_duration (probe : List String → Except String String) (vp : String) : Option ℚ :=
  match probe (ffprobe_duration_cmd vp) with
  | Except.error _ => none
  | Except.ok stdout => parsePyFloatChars (trimChars stdout.data)

/-- `VideoProcessor.get_frame_rate`: probe, strip, split on `/`, `map(int,·)`,
unpack exactly two values, divide.  A tool failure, an unparsable part, a
part count other than two, or a zero denominator (`ZeroDivisionError`) is
caught and becomes the `None` sentinel. -/
def get_frame_rate (probe : List String → Except String String) (vp : String) : Option ℚ :=
  match probe (ffprobe_frame_rate_cmd vp) with
  | Except.error _ => none
  | Except.ok stdout =>
    match (splitOnChar '/' (trimChars stdout.data)).mapM parsePyIntChars with
    | some [num, denom] => if denom = 0 then none else some ((num : ℚ) / (denom : ℚ))
    | _ => none

/-- The probed facts an instance carries (`__init__` fills all four fields;
`video_path` is the constructor argument, `is_hdr` is computed from the
module global — see `check_hdr`). -/
structure VideoProcessor where
  video_path : String
  is_hdr : Bool
  duration : Option ℚ
  frame_rate : Option ℚ
deriving DecidableEq

/-- `VideoProcessor.__init__`. -/
def VideoProcessor.init (env : Env) (global_video_path : Option String)
    (video_path : String) : VideoProcessor :=
  { video_path := video_path
    is_hdr := check_hdr env.probe global_video_path
    duration := get_duration env.probe video_path
    frame_rate := get_frame_rate env.probe video_path }

/-! ### Overlay geometry and the transcode worker -/

/-- The overlay geometry/color block of `transcode_and_overlay` (source lines
91–94), as the pure function of `(width, height, hdr)` it is.  The source
computes `int(0.07 * height)` / `int(0.05 * height)` / `int(height * 0.07)`
on Python floats; with the literals read exactly as `7/100` and `5/100`,
`int(·)` (truncation toward zero) of the product equals the `Int`
T-division `7 * height / 100` (resp. `5 * height / 100`), and for every
height of the fixed resolution table this also coincides value-for-value
with the IEEE-754 double computation the interpreter performs. -/
structure OverlaySpec where
  color : String
  radius : ℤ
  x : ℤ
  y : ℤ
deriving DecidableEq

def overlaySpec (width height : ℤ) (hdr : Bool) : OverlaySpec :=
  let circle_radius : ℤ := if hdr then 7 * height / 100 else 5 * height / 100
  { color := if hdr then "green" else "white"
    radius := circle_radius
    x := width - circle_radius
    y := if hdr then height * 7 / 100 else height - circle_radius }

/-- `VideoProcessor.draw_circle`: the drawtext filter string. -/
def draw_circle (color : String) (x y radius : ℤ) : String :=
  "drawtext=text=\x27o\x27:x=" ++ toString x ++ ":y=" ++ toString y ++
    ":fontsize=" ++ toString (radius * 2) ++ ":fontcolor=" ++ color ++ ":alpha=0.5"

/-- Python `str(x)` applied to a probed fact: the unbound sentinel `None`
stringifies to `"None"`; a present value's float rendering is abstracted by
the rational's `toString` (no settled claim inspects that branch). -/
def pyStrOpt (x : Option ℚ) : String :=
  match x with
  | none => "None"
  | some q => toString q

/-- The rendition output path of `transcode_and_overlay` (source lines
98–99): `os.path.join('output', f"{splitext(basename(video_path))[0]}_{resolution}{_HDR|_SDR}.mp4")`. -/
def output_path (video_path resolution : String) (hdr : Bool) : String :=
  osJoin "output"
    (splitextRootStr (basenameStr video_path) ++ "_" ++ resolution ++
      (if hdr then "_HDR" else "_SDR") ++ ".mp4")

/-- The ffmpeg argument list of `transcode_and_overlay` (source lines
101–109). -/
def ffmpeg_cmd (self : VideoProcessor) (width height : ℤ) (circle_filter out : String) :
    List String :=
  ["ffmpeg", "-i", self.video_path,
   "-vf", "scale=" ++ toString width ++ ":" ++ toString height ++ "," ++ circle_filter,
   "-c:v", "libx265", "-crf", "28", "-preset", "medium",
   "-r", pyStrOpt self.frame_rate,
   "-c:a", "aac", "-b:a", "128k",
   "-t", pyStrOpt self.duration,
   out]

/-- `VideoProcessor.transcode_and_overlay`.  Everything runs inside one
blanket `try`: a missing table key, an unparsable dimension string, or a
nonzero ffmpeg exit (raised as `RuntimeError`) is caught, printed, and
yields `None`; success yields the output path. -/
def transcode_and_overlay (env : Env) (self : VideoProcessor)
    (resolution : String) (hdr : Bool) : Option String :=
  match resolutions.lookup resolution with
  | none => none
  | some dims =>
    match (splitOnChar 'x' dims.data).mapM parsePyIntChars with
    | some [width, height] =>
      let spec := overlaySpec width height hdr
      let circle_filter := draw_circle spec.color spec.x spec.y spec.radius
      let out := output_path self.video_path resolution hdr
      let cmd := ffmpeg_cmd self width height circle_filter out
      if env.ffmpegExit cmd ≠ 0 then none else some out
    | _ => none

/-! ### Bento4Packager -/

/-- Fragmented-intermediate path (source line 130). -/
def frag_output_path (input_path : String) : String :=
  osJoin "output" (splitextRootStr (basenameStr input_path) ++ "-fragmented.mp4")

/-- The mp4fragment shell command for one input (source line 131). -/
def mp4fragment_cmd (input_path fragmented_path : String) : String :=
  "mp4fragment --fragment-duration 7000 " ++ input_path ++ " " ++ fragmented_path

/-- The mp4dash shell command over the fragmented set (source lines 140–141). -/
def mp4dash_cmd (fragmented_paths : List String) : String :=
  "mp4dash -o output/output_dash " ++ String.intercalate " " fragmented_paths

/-- Observable outcome of `Bento4Packager.package`: which fragmentation
commands were run, which fragmented paths were accumulated, and whether the
manifest tool was invoked (and with what command). -/
structure PackageTrace where
  fragmentCalls : List String
  fragmented_paths : List String
  dashInvoked : Bool
  dashCmd : Option String
  dashFailed : Bool
deriving DecidableEq

/-- The fragmentation loop of `package` (source lines 129–135): returns the
commands run, the fragmented paths accumulated, and whether the loop
completed (`false` means a nonzero exit raised `RuntimeError`, caught by the
method's blanket handler, so the loop stopped right after that call). -/
def fragLoop (fragExit : String → Int) : List String → List String × List String × Bool
  | [] => ([], [], true)
  | p :: rest =>
    let cmd := mp4fragment_cmd p (frag_output_path p)
    if fragExit p = 0 then
      let r := fragLoop fragExit rest
      (cmd :: r.1, frag_output_path p :: r.2.1, r.2.2)
    else ([cmd], [], false)

/-- `Bento4Packager.package`: fragment each input in order; on the first
nonzero fragmentation exit abort (no further fragmentation, no mp4dash);
otherwise invoke mp4dash once over the fragmented set, whose own failure is
caught and only logged. -/
def package (fragExit : String → Int) (dashExit : Int) (input_paths : List String) :
    PackageTrace :=
  let r := fragLoop fragExit input_paths
  if r.2.2 then
    { fragmentCalls := r.1
      fragmented_paths := r.2.1
      dashInvoked := true
      dashCmd := some (mp4dash_cmd r.2.1)
      dashFailed := dashExit ≠ 0 }
  else
    { fragmentCalls := r.1
      fragmented_paths := r.2.1
      dashInvoked := false
      dashCmd := none
      dashFailed := false }

/-! ### main and the command-line entry point -/

/-- The job list `main` submits (source lines 166–169): for each resolution,
one job with the probed HDR flag, plus a forced-SDR job when that flag is
true. -/
def planJobs (is_hdr : Bool) : List (String × Bool) :=
  resolutionNames.foldl
    (fun acc res =>
      let acc := acc ++ [(res, is_hdr)]
      if is_hdr then acc ++ [(res, false)] else acc)
    []

/-- The fan-in loop of `main` (source lines 172–178): futures are consumed
in completion order (`completionOrder`, a model parameter — any permutation
of the submitted jobs); a job's `None` result, or the Python-falsy empty
string, contributes nothing. -/
def collectResults (env : Env) (processor : VideoProcessor)
    (completionOrder : List (String × Bool)) : List String :=
  completionOrder.foldl
    (fun acc job =>
      match transcode_and_overlay env processor job.1 job.2 with
      | some r => if r = "" then acc else acc ++ [r]
      | none => acc)
    []

/-- Observable outcome of one `main` run. -/
structure MainResult where
  exitCode : Option ℕ
  notFoundPrinted : Bool
  madeOutputDir : Bool
  probed : Bool
  jobs : List (String × Bool)
  transcoded_files : List String
  packageTrace : Option PackageTrace
deriving DecidableEq

/-- `main(video_path)` (source lines 148–184).  `global_video_path` is the
binding state of the module-level global read by `check_hdr`;
`completionOrder` is the order `as_completed` yields the futures. -/
def main (env : Env) (global_video_path : Option String) (video_path : String)
    (completionOrder : List (String × Bool)) : MainResult :=
  if env.fileExists video_path = false then
    { exitCode := some 1
      notFoundPrinted := true
      madeOutputDir := false
      probed := false
      jobs := []
      transcoded_files := []
      packageTrace := none }
  else
    let processor := VideoProcessor.init env global_video_path video_path
    let transcoded_files := collectResults env processor completionOrder
    { exitCode := none
      notFoundPrinted := false
      madeOutputDir := true
      probed := true
      jobs := planJobs processor.is_hdr
      transcoded_files := transcoded_files
      packageTrace := some (package env.fragExit env.dashExit transcoded_files) }

/-- The `__main__` block (source lines 186–193): usage check, then `main`
with the global `video_path` bound to `sys.argv[1]`; a run that returns from
`main` ends the process with exit code 0. -/
def script (env : Env) (argv : List String)
    (completionOrder : List (String × Bool)) : ℕ :=
  match argv with
  | [_, vp] =>
    match (main env (some vp) vp completionOrder).exitCode with
    | some c => c
    | none => 0
  | _ => 1

/-! ### Concrete environments for evaluating the model on closed runs -/

/-- Everything on disk exists, every probe raises (so every probed fact
falls back to its sentinel), and every external tool exits 0. -/
def envAllOk : Env :=
  { fileExists := fun _ => true
    probe := fun _ => Except.error "probe failure"
    ffmpegExit := fun _ => 0
    fragExit := fun _ => 0
    dashExit := 0 }

/-- Like `envAllOk`, but ffmpeg exits 1 exactly for the job whose output
is `output/v_360p_SDR.mp4`. -/
def envOneFfmpegFail : Env :=
  { envAllOk with
    ffmpegExit := fun cmd => if cmd.getLast? = some "output/v_360p_SDR.mp4" then 1 else 0 }

/-- Like `envAllOk`, but no path exists on disk. -/
def envNoFile : Env :=
  { envAllOk with fileExists := fun _ => false }

/-- Like `envAllOk`, but the color probe reports an HDR transfer exactly
when asked about path `g`. -/
def envHdrAt (g : String) : Env :=
  { envAllOk with
    probe := fun cmd =>
      if cmd = ffprobe_color_cmd g then Except.ok "smpte2084" else Except.error "probe failure" }

/-! ### Helper lemmas: substring test, string plumbing -/

theorem containsSub_iff (pat : List Char) : ∀ l : List Char,
    containsSub pat l = true ↔ pat <:+: l := by
  intro l
  induction l with
  | nil =>
    simp [containsSub, List.infix_nil, List.isPrefixOf_iff_prefix, List.prefix_nil]
  | cons a rest ih =>
    simp [containsSub, List.infix_cons_iff, List.isPrefixOf_iff_prefix, ih]

theorem stringExt {a b : String} (h : a.data = b.data) : a = b :=
  String.ext h

theorem mk_data (s : String) : String.mk s.data = s := by
  cases s
  rfl

theorem str_append_cancel (a : String) {b c : String} (h : a ++ b = a ++ c) : b = c := by
  apply stringExt
  have hd : a.data ++ b.data = a.data ++ c.data := by
    rw [← String.data_append, ← String.data_append, h]
  exact List.append_cancel_left hd

/-! ### Helper lemmas: `lastIndexOf`, `basename`, `splitext`, `osJoin` -/

theorem lastIndexOf_eq_none (c : Char) : ∀ l : List Char,
    lastIndexOf c l = none ↔ c ∉ l := by
  intro l
  induction l with
  | nil => simp [lastIndexOf]
  | cons a rest ih =>
    simp only [lastIndexOf, List.mem_cons]
    cases hr : lastIndexOf c rest with
    | some i =>
      have hcr : c ∈ rest := by
        by_contra hc
        rw [ih.mpr hc] at hr
        cases hr
      simp [hcr]
    | none =>
      by_cases hac : a = c
      · simp [hac]
      · simp only [if_neg hac]
        constructor
        · intro _ h
          rcases h with h | h
          · exact hac h.symm
          · exact ih.mp hr h
        · intro _
          trivial

theorem lastIndexOf_append_notMem (c : Char) {l2 : List Char} (h2 : c ∉ l2) :
    ∀ l1 : List Char, lastIndexOf c (l1 ++ l2) = lastIndexOf c l1 := by
  intro l1
  induction l1 with
  | nil => simp [(lastIndexOf_eq_none c l2).mpr h2, lastIndexOf]
  | cons a rest ih => simp [lastIndexOf, ih]

theorem lastIndexOf_append_cons (c : Char) {l2 : List Char} (h2 : c ∉ l2) :
    ∀ l1 : List Char, lastIndexOf c (l1 ++ c :: l2) = some l1.length := by
  intro l1
  induction l1 with
  | nil => simp [lastIndexOf, (lastIndexOf_eq_none c l2).mpr h2]
  | cons a rest ih => simp [lastIndexOf, ih]

theorem notMem_drop_of_lastIndexOf {c : Char} : ∀ {l : List Char} {i : ℕ},
    lastIndexOf c l = some i → c ∉ l.drop (i + 1) := by
  intro l
  induction l with
  | nil => intro i h; simp [lastIndexOf] at h
  | cons a rest ih =>
    intro i h
    simp only [lastIndexOf] at h
    cases hr : lastIndexOf c rest with
    | some j =>
      rw [hr] at h
      cases h
      simpa using ih hr
    | none =>
      rw [hr] at h
      by_cases hac : a = c
      · simp only [hac, if_pos rfl] at h
        cases h
        simpa using (lastIndexOf_eq_none c rest).mp hr
      · simp [hac] at h

theorem basenameChars_noslash (p : List Char) : '/' ∉ basenameChars p := by
  unfold basenameChars
  cases h : lastIndexOf '/' p with
  | none => exact (lastIndexOf_eq_none '/' p).mp h
  | some i => exact notMem_drop_of_lastIndexOf h

theorem basenameChars_append {n : List Char} (hn : '/' ∉ n) (l : List Char) :
    basenameChars (l ++ '/' :: n) = n := by
  unfold basenameChars
  rw [lastIndexOf_append_cons '/' hn l]
  show (l ++ '/' :: n).drop (l.length + 1) = n
  have hsplit : l ++ '/' :: n = (l ++ ['/']) ++ n := by simp
  have hlen : (l ++ ['/']).length = l.length + 1 := by simp
  rw [hsplit, ← hlen, List.drop_left]

theorem splitextRootChars_subset (p : List Char) : ∀ {c : Char},
    c ∈ splitextRootChars p → c ∈ p := by
  intro c hc
  unfold splitextRootChars at hc
  rcases h : lastIndexOf '.' p with _ | d <;> rw [h] at hc
  · exact hc
  · dsimp only at hc
    split at hc
    · exact List.take_subset _ _ hc
    · exact hc

theorem splitextRootChars_mp4 {s : List Char} (hs : '/' ∉ s)
    (hnd : ∃ ch ∈ s, ch ≠ '.') :
    splitextRootChars (s ++ ".mp4".data) = s := by
  have hm : ('.' : Char) ∉ ['m', 'p', '4'] := by decide
  have hdot : lastIndexOf '.' (s ++ ".mp4".data) = some s.length := by
    have : s ++ ".mp4".data = s ++ '.' :: ['m', 'p', '4'] := rfl
    rw [this, lastIndexOf_append_cons '.' hm s]
  have hslash : lastIndexOf '/' (s ++ ".mp4".data) = none := by
    rw [lastIndexOf_eq_none]
    intro hmem
    rcases List.mem_append.mp hmem with h | h
    · exact hs h
    · simp at h
  unfold splitextRootChars
  rw [hdot]
  dsimp only
  rw [hslash]
  have hcond : (((s ++ ".mp4".data).drop 0).take (s.length - 0)).any (fun ch => ch ≠ '.') = true := by
    simp only [List.drop_zero, Nat.sub_zero, List.take_left]
    rcases hnd with ⟨ch, hch, hne⟩
    exact List.any_eq_true.mpr ⟨ch, hch, by simpa using hne⟩
  rw [if_pos ⟨Nat.zero_le _, hcond⟩]
  exact List.take_left s _

theorem head?_ne_of_notMem {c : Char} {l : List Char} (h : c ∉ l) :
    l.head? ≠ some c := by
  cases l with
  | nil => simp
  | cons a rest =>
    simp only [List.head?_cons]
    intro hc
    cases hc
    simp at h

theorem osJoin_of_noslash {b : String} (hb : '/' ∉ b.data) :
    osJoin "output" b = "output/" ++ b := by
  unfold osJoin
  rw [if_neg (head?_ne_of_notMem hb)]
  apply stringExt
  simp [String.data_append]

theorem osJoin_output_ne_empty (b : String) : osJoin "output" b ≠ "" := by
  unfold osJoin
  split
  · next h =>
    intro hc
    cases hc
    simp at h
  · intro hc
    have := congrArg String.data hc
    simp [String.data_append] at this

/-! ### Helper lemmas: coordinator fold, transcode result shape -/

theorem collectResults_go (env : Env) (proc : VideoProcessor) :
    ∀ (order : List (String × Bool)) (acc : List String),
      order.foldl
        (fun acc job =>
          match transcode_and_overlay env proc job.1 job.2 with
          | some r => if r = "" then acc else acc ++ [r]
          | none => acc) acc
      = acc ++ order.filterMap (fun job =>
          match transcode_and_overlay env proc job.1 job.2 with
          | some r => if r = "" then none else some r
          | none => none) := by
  intro order
  induction order with
  | nil => simp
  | cons j rest ih =>
    intro acc
    cases ht : transcode_and_overlay env proc j.1 j.2 with
    | none => simp [List.foldl_cons, List.filterMap_cons, ht, ih]
    | some r =>
      by_cases hr : r = ""
      · simp [List.foldl_cons, List.filterMap_cons, ht, hr, ih]
      · simp [List.foldl_cons, List.filterMap_cons, ht, hr, ih]

theorem collectResults_eq (env : Env) (proc : VideoProcessor)
    (order : List (String × Bool)) :
    collectResults env proc order = order.filterMap (fun job =>
      match transcode_and_overlay env proc job.1 job.2 with
      | some r => if r = "" then none else some r
      | none => none) := by
  unfold collectResults
  simpa using collectResults_go env proc order []

theorem output_path_ne_empty (vp res : String) (hdr : Bool) :
    output_path vp res hdr ≠ "" :=
  osJoin_output_ne_empty _

theorem transcode_some_shape {env : Env} {proc : VideoProcessor}
    {res : String} {hdr : Bool} {s : String}
    (h : transcode_and_overlay env proc res hdr = some s) :
    s = output_path proc.video_path res hdr := by
  unfold transcode_and_overlay at h
  rcases hl : resolutions.lookup res with _ | dims
  · rw [hl] at h
    cases h
  · rw [hl] at h
    dsimp only at h
    rcases hp : (splitOnChar 'x' dims.data).mapM parsePyIntChars with _ | l
    · rw [hp] at h
      cases h
    · rw [hp] at h
      rcases l with _ | ⟨w, _ | ⟨ht, _ | rest⟩⟩
      · cases h
      · cases h
      · dsimp only at h
        split at h
        · cases h
        · cases h
          rfl
      · cases h

theorem transcode_some_ne_empty {env : Env} {proc : VideoProcessor}
    {res : String} {hdr : Bool} {s : String}
    (h : transcode_and_overlay env proc res hdr = some s) : s ≠ "" := by
  rw [transcode_some_shape h]
  exact output_path_ne_empty _ _ _

theorem length_filterMap_countP {α β : Type} (g : α → Option β) : ∀ l : List α,
    (l.filterMap g).length = l.countP (fun a => (g a).isSome) := by
  intro l
  induction l with
  | nil => rfl
  | cons a rest ih =>
    cases hg : g a <;> simp [List.filterMap_cons, List.countP_cons, hg, ih]

theorem countP_add_countP_not {α : Type} (p : α → Bool) : ∀ l : List α,
    l.countP p + l.countP (fun a => !(p a)) = l.length := by
  intro l
  induction l with
  | nil => rfl
  | cons a rest ih =>
    cases hp : p a <;> simp [List.countP_cons, hp] <;> omega

theorem lookup_resolutions {res dims : String} (h : (res, dims) ∈ resolutions) :
    resolutions.lookup res = some dims := by
  simp only [resolutions, List.mem_cons, List.not_mem_nil, or_false, Prod.mk.injEq] at h
  rcases h with ⟨rfl, rfl⟩ | ⟨rfl, rfl⟩ | ⟨rfl, rfl⟩ | ⟨rfl, rfl⟩ <;> rfl

/-! ### Helper lemmas: output-path algebra -/

theorem res_noslash {res : String} (h : res ∈ resolutionNames) : '/' ∉ res.data := by
  simp only [resolutionNames, resolutions, List.map_cons, List.map_nil, List.mem_cons,
    List.not_mem_nil, or_false] at h
  rcases h with rfl | rfl | rfl | rfl <;> decide

theorem stem_noslash (vp : String) : '/' ∉ (splitextRootStr (basenameStr vp)).data := by
  intro hmem
  exact basenameChars_noslash vp.data (splitextRootChars_subset _ hmem)

theorem rendition_stem_noslash {vp res : String} (hdr : Bool) (hres : '/' ∉ res.data) :
    '/' ∉ (splitextRootStr (basenameStr vp) ++ "_" ++ res ++
      (if hdr then "_HDR" else "_SDR")).data := by
  cases hdr <;>
    · intro hmem
      simp only [String.data_append, List.mem_append, if_true, if_false] at hmem
      rcases hmem with ((h | h) | h) | h
      · exact stem_noslash vp h
      · simp at h
      · exact hres h
      · simp at h

theorem rendition_name_noslash {vp res : String} (hdr : Bool) (hres : '/' ∉ res.data) :
    '/' ∉ (splitextRootStr (basenameStr vp) ++ "_" ++ res ++
      (if hdr then "_HDR" else "_SDR") ++ ".mp4").data := by
  cases hdr <;>
    · intro hmem
      simp only [String.data_append, List.mem_append, if_true, if_false] at hmem
      rcases hmem with (((h | h) | h) | h) | h
      · exact stem_noslash vp h
      · simp at h
      · exact hres h
      · simp at h
      · simp at h

theorem output_path_eq {vp res : String} (hdr : Bool) (hres : '/' ∉ res.data) :
    output_path vp res hdr =
      "output/" ++ splitextRootStr (basenameStr vp) ++ "_" ++ res ++
        (if hdr then "_HDR" else "_SDR") ++ ".mp4" := by
  unfold output_path
  rw [osJoin_of_noslash (rendition_name_noslash hdr hres)]
  apply stringExt
  simp [String.data_append, List.append_assoc]

theorem output_path_eq_grouped {vp res : String} (hdr : Bool) (hres : '/' ∉ res.data) :
    output_path vp res hdr =
      ("output/" ++ splitextRootStr (basenameStr vp) ++ "_") ++
        (res ++ ((if hdr then "_HDR" else "_SDR") ++ ".mp4")) := by
  rw [output_path_eq hdr hres]
  apply stringExt
  simp [String.data_append, List.append_assoc]

theorem underscore_mem_rendition_stem (vp res : String) (hdr : Bool) :
    '_' ∈ (splitextRootStr (basenameStr vp) ++ "_" ++ res ++
      (if hdr then "_HDR" else "_SDR")).data := by
  simp only [String.data_append, List.mem_append]
  left
  left
  right
  decide

theorem frag_of_output_path {vp res : String} (hdr : Bool) (hres : '/' ∉ res.data) :
    frag_output_path (output_path vp res hdr) =
      "output/" ++ (splitextRootStr (basenameStr vp) ++ "_" ++ res ++
        (if hdr then "_HDR" else "_SDR")) ++ "-fragmented.mp4" := by
  have hYnoslash := @rendition_stem_noslash vp res hdr hres
  have hNnoslash := @rendition_name_noslash vp res hdr hres
  have hop : output_path vp res hdr =
      "output/" ++ (splitextRootStr (basenameStr vp) ++ "_" ++ res ++
        (if hdr then "_HDR" else "_SDR") ++ ".mp4") := by
    unfold output_path
    rw [osJoin_of_noslash hNnoslash]
  have hbn : basenameStr (output_path vp res hdr) =
      splitextRootStr (basenameStr vp) ++ "_" ++ res ++
        (if hdr then "_HDR" else "_SDR") ++ ".mp4" := by
    rw [hop]
    apply stringExt
    show basenameChars (("output/" ++ _).data) = _
    have hdata : ∀ X : String, ("output/" ++ X).data = "output".data ++ '/' :: X.data := by
      intro X
      rw [String.data_append]
      rfl
    rw [hdata]
    exact basenameChars_append hNnoslash "output".data
  have hsx : splitextRootStr (splitextRootStr (basenameStr vp) ++ "_" ++ res ++
      (if hdr then "_HDR" else "_SDR") ++ ".mp4") =
      splitextRootStr (basenameStr vp) ++ "_" ++ res ++ (if hdr then "_HDR" else "_SDR") := by
    apply stringExt
    show splitextRootChars (((_ ++ ".mp4" : String)).data) = _
    rw [String.data_append]
    exact splitextRootChars_mp4 hYnoslash
      ⟨'_', underscore_mem_rendition_stem vp res hdr, by decide⟩
  unfold frag_output_path
  rw [hbn, hsx]
  have hfrag_noslash : '/' ∉ ((splitextRootStr (basenameStr vp) ++ "_" ++ res ++
      (if hdr then "_HDR" else "_SDR")) ++ "-fragmented.mp4").data := by
    intro hmem
    rw [String.data_append] at hmem
    rcases List.mem_append.mp hmem with h | h
    · exact hYnoslash h
    · simp at h
  rw [osJoin_of_noslash hfrag_noslash]
  apply stringExt
  simp [String.data_append, List.append_assoc]

theorem output_path_inj {vp r1 r2 : String} {h1 h2 : Bool}
    (hm1 : r1 ∈ resolutionNames) (hm2 : r2 ∈ resolutionNames)
    (hne : (r1, h1) ≠ (r2, h2)) :
    output_path vp r1 h1 ≠ output_path vp r2 h2 := by
  intro heq
  rw [output_path_eq_grouped h1 (res_noslash hm1),
    output_path_eq_grouped h2 (res_noslash hm2)] at heq
  have hsfx := str_append_cancel _ heq
  simp only [resolutionNames, resolutions, List.map_cons, List.map_nil, List.mem_cons,
    List.not_mem_nil, or_false] at hm1 hm2
  rcases hm1 with rfl | rfl | rfl | rfl <;> rcases hm2 with rfl | rfl | rfl | rfl <;>
    cases h1 <;> cases h2 <;>
      first
        | exact hne rfl
        | exact absurd hsfx (by decide)

/-! ### Helper lemmas: fragmentation loop -/

theorem fragLoop_abort {fragExit : String → Int} :
    ∀ {inputs : List String}, (∃ p ∈ inputs, fragExit p ≠ 0) →
      (fragLoop fragExit inputs).2.2 = false ∧
      (fragLoop fragExit inputs).1 =
        (inputs.take ((inputs.takeWhile (fun p => fragExit p == 0)).length + 1)).map
          (fun p => mp4fragment_cmd p (frag_output_path p)) := by
  intro inputs
  induction inputs with
  | nil => intro h; simp at h
  | cons p rest ih =>
    intro hex
    by_cases hp : fragExit p = 0
    · have hex2 : ∃ q ∈ rest, fragExit q ≠ 0 := by
        rcases hex with ⟨q, hq, hqne⟩
        rcases List.mem_cons.mp hq with rfl | hq2
        · exact absurd hp hqne
        · exact ⟨q, hq2, hqne⟩
      have ih2 := ih hex2
      constructor
      · simp only [fragLoop, if_pos hp]
        exact ih2.1
      · simp [fragLoop, hp, List.takeWhile_cons, List.take_succ_cons, ih2.2]
    · constructor
      · simp [fragLoop, hp]
      · have hbeq : (fragExit p == 0) = false := by
          simpa using hp
        simp [fragLoop, hp, List.takeWhile_cons, hbeq]

/-! ### Claim theorems -/

/-- C1.  Job enumeration: for every probed source, the planner submits one
job per resolution in the fixed four-entry table carrying the probed HDR
flag, plus a forced-SDR job per resolution when that flag is true: exactly
4 jobs for an SDR source, all with `isHDR = false`, and exactly 8 for an
HDR source (an HDR and a forced-SDR variant per resolution); `main` submits
exactly this list. -/
theorem job_enumeration_c1 :
    (∀ b : Bool, (planJobs b).length = if b then 8 else 4) ∧
    planJobs false = [("360p", false), ("480p", false), ("720p", false), ("1080p", false)] ∧
    planJobs true = [("360p", true), ("360p", false), ("480p", true), ("480p", false),
      ("720p", true), ("720p", false), ("1080p", true), ("1080p", false)] ∧
    (∀ (env : Env) (g : Option String) (vp : String) (order : List (String × Bool)),
      env.fileExists vp = true →
      (main env g vp order).jobs = planJobs (check_hdr env.probe g)) := by
  refine ⟨?_, by decide, by decide, ?_⟩
  · intro b
    cases b <;> rfl
  · intro env g vp order h
    simp [main, h, VideoProcessor.init]

theorem job_enumeration_c1_witness :
    envAllOk.fileExists "v" = true ∧
    (main envAllOk none "v" []).jobs = planJobs (check_hdr envAllOk.probe none) :=
  ⟨rfl, job_enumeration_c1.2.2.2 envAllOk none "v" [] rfl⟩

/-- C2.  HDR detection: the source is classified HDR iff the probing
invocation completed and at least one of the fixed marker strings
(`bt2020`, `smpte2084`, `arib-std-b67`, `bt2020nc`) occurs as a substring
of some line of the (stripped, newline-split) output; a probing error
yields `false`, reported rather than propagated (`check_hdr` is total). -/
theorem hdr_detection_c2 :
    ∀ (probe : List String → Except String String) (g : String),
      (check_hdr probe (some g) = true ↔
        ∃ out : String, probe (ffprobe_color_cmd g) = Except.ok out ∧
          ∃ line ∈ splitOnChar '\n' (trimChars out.data),
            ∃ fmt ∈ hdr_formats, fmt.data <:+: line) ∧
      (∀ e, probe (ffprobe_color_cmd g) = Except.error e →
        check_hdr probe (some g) = false) := by
  intro probe g
  constructor
  · simp only [check_hdr]
    cases hp : probe (ffprobe_color_cmd g) with
    | error e => simp
    | ok out =>
      rw [List.any_eq_true]
      constructor
      · rintro ⟨line, hline, hfmt⟩
        rw [List.any_eq_true] at hfmt
        rcases hfmt with ⟨fmt, hf, hsub⟩
        exact ⟨out, rfl, line, hline, fmt, hf, (containsSub_iff _ _).mp hsub⟩
      · rintro ⟨out2, hout2, line, hline, fmt, hf, hsub⟩
        injection hout2 with hout2
        subst hout2
        exact ⟨line, hline, List.any_eq_true.mpr ⟨fmt, hf, (containsSub_iff _ _).mpr hsub⟩⟩
  · intro e he
    simp [check_hdr, he]

theorem hdr_detection_c2_witness :
    ((fun _ => Except.error "boom" : List String → Except String String)
      (ffprobe_color_cmd "v") = Except.error "boom") ∧
    check_hdr (fun _ => Except.error "boom") (some "v") = false :=
  ⟨rfl, (hdr_detection_c2 (fun _ => Except.error "boom") "v").2 "boom" rfl⟩

/-- C4.  Fragmentation hard-stop: whenever some input's fragmentation call
exits nonzero, packaging aborts — the manifest tool (mp4dash) is never
invoked, and the fragmentation commands actually run are exactly those for
the inputs up to and including the first failing one. -/
theorem fragmentation_hard_stop_c4 :
    ∀ (fragExit : String → Int) (dashExit : Int) (inputs : List String),
      (∃ p ∈ inputs, fragExit p ≠ 0) →
      (package fragExit dashExit inputs).dashInvoked = false ∧
      (package fragExit dashExit inputs).dashCmd = none ∧
      (package fragExit dashExit inputs).fragmentCalls =
        (inputs.take ((inputs.takeWhile (fun p => fragExit p == 0)).length + 1)).map
          (fun p => mp4fragment_cmd p (frag_output_path p)) := by
  intro fragExit dashExit inputs hex
  have hab := fragLoop_abort hex
  refine ⟨?_, ?_, ?_⟩ <;> simp [package, hab.1, hab.2]

theorem fragmentation_hard_stop_c4_witness :
    (∃ p ∈ ["output/a.mp4", "output/b.mp4", "output/c.mp4"],
      (fun q => if q = "output/b.mp4" then (1 : Int) else 0) p ≠ 0) ∧
    (package (fun q => if q = "output/b.mp4" then (1 : Int) else 0) 0
      ["output/a.mp4", "output/b.mp4", "output/c.mp4"]).dashInvoked = false :=
  ⟨by decide,
   (fragmentation_hard_stop_c4 (fun q => if q = "output/b.mp4" then (1 : Int) else 0) 0
     ["output/a.mp4", "output/b.mp4", "output/c.mp4"] (by decide)).1⟩

/-- C7.  Missing-file scenario: when the input path does not exist, `main`
prints the not-found message and exits with status 1 before creating the
output directory, before probing, and before any job is planned, run, or
packaged. -/
theorem missing_file_c7 :
    ∀ (env : Env) (g : Option String) (vp : String) (order : List (String × Bool)),
      env.fileExists vp = false →
      (main env g vp order).exitCode = some 1 ∧
      (main env g vp order).notFoundPrinted = true ∧
      (main env g vp order).madeOutputDir = false ∧
      (main env g vp order).probed = false ∧
      (main env g vp order).jobs = [] ∧
      (main env g vp order).transcoded_files = [] ∧
      (main env g vp order).packageTrace = none := by
  intro env g vp order h
  refine ⟨?_, ?_, ?_, ?_, ?_, ?_, ?_⟩ <;> simp [main, h]

theorem missing_file_c7_witness :
    envNoFile.fileExists "clip.mp4" = false ∧
    (main envNoFile none "clip.mp4" []).exitCode = some 1 :=
  ⟨rfl, (missing_file_c7 envNoFile none "clip.mp4" [] rfl).1⟩

/-- C10.  Implicit global-variable dependence: `check_hdr` reads the
module-level global `video_path`, not the instance's path — with the global
unbound the `NameError` is caught and the source is classified SDR, and
with the global bound the classification depends only on the probe of the
global's path, irrespective of the constructor argument. -/
theorem global_path_hdr_c10 :
    (∀ (env : Env) (vp : String), (VideoProcessor.init env none vp).is_hdr = false) ∧
    (∀ (env env2 : Env) (g vp vp2 : String),
      env.probe (ffprobe_color_cmd g) = env2.probe (ffprobe_color_cmd g) →
      (VideoProcessor.init env (some g) vp).is_hdr =
        (VideoProcessor.init env2 (some g) vp2).is_hdr) := by
  refine ⟨fun env vp => rfl, ?_⟩
  intro env env2 g vp vp2 hp
  simp [VideoProcessor.init, check_hdr, hp]

theorem global_path_hdr_c10_witness :
    (envHdrAt "g").probe (ffprobe_color_cmd "g") =
      (envHdrAt "g").probe (ffprobe_color_cmd "g") ∧
    (VideoProcessor.init (envHdrAt "g") (some "g") "a").is_hdr =
      (VideoProcessor.init (envHdrAt "g") (some "g") "b").is_hdr :=
  ⟨rfl, global_path_hdr_c10.2 (envHdrAt "g") (envHdrAt "g") "g" "a" "b" rfl⟩

/-- C3.  Partial failure tolerance: over any completion order of the
planned batch, if exactly one job fails (its result is the `None`
sentinel, produced both by a nonzero ffmpeg exit and by a raised error),
the coordinator's result list is exactly the successful jobs' output
paths, every successful job's path is collected (no sibling is cancelled
or affected), the collected list is one shorter than the batch, and the
Packager is invoked with exactly that list. -/
theorem partial_failure_c3 :
    ∀ (env : Env) (g : Option String) (vp : String) (order : List (String × Bool)),
      env.fileExists vp = true →
      order.Perm (planJobs (VideoProcessor.init env g vp).is_hdr) →
      order.countP
        (fun j => (transcode_and_overlay env (VideoProcessor.init env g vp) j.1 j.2).isNone)
        = 1 →
      (main env g vp order).transcoded_files =
        order.filterMap
          (fun j => transcode_and_overlay env (VideoProcessor.init env g vp) j.1 j.2) ∧
      (∀ j ∈ order, ∀ s,
        transcode_and_overlay env (VideoProcessor.init env g vp) j.1 j.2 = some s →
        s ∈ (main env g vp order).transcoded_files) ∧
      (main env g vp order).transcoded_files.length + 1 =
        (planJobs (VideoProcessor.init env g vp).is_hdr).length ∧
      (main env g vp order).packageTrace =
        some (package env.fragExit env.dashExit (main env g vp order).transcoded_files) := by
  intro env g vp order hfe hperm hcount
  have hmain_files :
      (main env g vp order).transcoded_files =
        collectResults env (VideoProcessor.init env g vp) order := by
    simp [main, hfe]
  have hcollect :
      collectResults env (VideoProcessor.init env g vp) order =
        order.filterMap
          (fun j => transcode_and_overlay env (VideoProcessor.init env g vp) j.1 j.2) := by
    rw [collectResults_eq]
    apply List.filterMap_congr
    intro j _
    cases ht : transcode_and_overlay env (VideoProcessor.init env g vp) j.1 j.2 with
    | none => rfl
    | some r => simp [transcode_some_ne_empty ht]
  refine ⟨hmain_files.trans hcollect, ?_, ?_, ?_⟩
  · intro j hj s hs
    rw [hmain_files, hcollect]
    exact List.mem_filterMap.mpr ⟨j, hj, hs⟩
  · rw [hmain_files, hcollect, length_filterMap_countP]
    have hsum := countP_add_countP_not
      (fun j => (transcode_and_overlay env (VideoProcessor.init env g vp) j.1 j.2).isSome) order
    have hnot :
        (fun j : String × Bool =>
          !(transcode_and_overlay env (VideoProcessor.init env g vp) j.1 j.2).isSome) =
        (fun j : String × Bool =>
          (transcode_and_overlay env (VideoProcessor.init env g vp) j.1 j.2).isNone) := by
      funext j
      cases transcode_and_overlay env (VideoProcessor.init env g vp) j.1 j.2 <;> rfl
    rw [hnot, hcount] at hsum
    have hlen := hperm.length_eq
    omega
  · simp [main, hfe]

theorem partial_failure_c3_witness :
    envOneFfmpegFail.fileExists "v" = true ∧
    (planJobs (VideoProcessor.init envOneFfmpegFail none "v").is_hdr).countP
      (fun j => (transcode_and_overlay envOneFfmpegFail
        (VideoProcessor.init envOneFfmpegFail none "v") j.1 j.2).isNone) = 1 ∧
    (main envOneFfmpegFail none "v"
        (planJobs (VideoProcessor.init envOneFfmpegFail none "v").is_hdr)).transcoded_files.length
      + 1 =
      (planJobs (VideoProcessor.init envOneFfmpegFail none "v").is_hdr).length :=
  ⟨rfl, by decide,
   (partial_failure_c3 envOneFfmpegFail none "v"
     (planJobs (VideoProcessor.init envOneFfmpegFail none "v").is_hdr)
     rfl (List.Perm.refl _) (by decide)).2.2.1⟩

/-- C5.  OverlaySpec purity and values: the overlay computation is a pure
function of `(height, isHDR)` (same inputs give the same color, radius,
and position), with color green iff HDR, radius 7% of the target height
for HDR and 5% for SDR (truncated to an integer, witnessed by the floor
bracketing `100·radius ≤ pct·height < 100·(radius+1)`), the marker at the
right edge (`x = width - radius`), and vertically in the top half for HDR
and the bottom half for SDR — for every entry of the resolution table and
both HDR states. -/
theorem overlay_spec_c5 :
    ∀ nm dims : String, (nm, dims) ∈ resolutions → ∀ hdr : Bool,
      ∃ w h : ℤ, (splitOnChar 'x' dims.data).mapM parsePyIntChars = some [w, h] ∧
        0 < h ∧
        (∀ (w2 h2 : ℤ) (hdr2 : Bool), w2 = w → h2 = h → hdr2 = hdr →
          overlaySpec w2 h2 hdr2 = overlaySpec w h hdr) ∧
        (overlaySpec w h hdr).color = (if hdr then "green" else "white") ∧
        100 * (overlaySpec w h hdr).radius ≤ (if hdr then 7 else 5) * h ∧
        (if hdr then 7 else 5) * h < 100 * ((overlaySpec w h hdr).radius + 1) ∧
        (overlaySpec w h hdr).x = w - (overlaySpec w h hdr).radius ∧
        (if hdr then 2 * (overlaySpec w h hdr).y < h else h < 2 * (overlaySpec w h hdr).y) := by
  intro nm dims hmem hdr
  simp only [resolutions, List.mem_cons, List.not_mem_nil, or_false, Prod.mk.injEq] at hmem
  rcases hmem with ⟨rfl, rfl⟩ | ⟨rfl, rfl⟩ | ⟨rfl, rfl⟩ | ⟨rfl, rfl⟩ <;> cases hdr <;>
    exact ⟨_, _, rfl, by decide,
      fun w2 h2 hdr2 hw hh hb => by rw [hw, hh, hb],
      by decide, by decide, by decide, by decide, by decide⟩

theorem overlay_spec_c5_witness :
    ("360p", "640x360") ∈ resolutions ∧
    ∃ w h : ℤ, (splitOnChar 'x' ("640x360" : String).data).mapM parsePyIntChars = some [w, h] ∧
      0 < h ∧
      (∀ (w2 h2 : ℤ) (hdr2 : Bool), w2 = w → h2 = h → hdr2 = true →
        overlaySpec w2 h2 hdr2 = overlaySpec w h true) ∧
      (overlaySpec w h true).color = (if true then "green" else "white") ∧
      100 * (overlaySpec w h true).radius ≤ (if true then 7 else 5) * h ∧
      (if true then 7 else 5) * h < 100 * ((overlaySpec w h true).radius + 1) ∧
      (overlaySpec w h true).x = w - (overlaySpec w h true).radius ∧
      (if true then 2 * (overlaySpec w h true).y < h else h < 2 * (overlaySpec w h true).y) :=
  ⟨by decide, overlay_spec_c5 "360p" "640x360" (by decide) true⟩

/-- C6.  Process exit codes: the exit code does not depend on the probe,
transcode, or packaging outcomes (so it is 0 even when some or all jobs
fail and when the packaging tools fail), it is always 0 or 1, and it is 0
exactly when the argument vector has exactly two entries and the input
file exists — i.e. nonzero exactly on a missing input file or a wrong
argument count. -/
theorem exit_codes_c6 :
    ∀ (env env2 : Env) (argv : List String) (order order2 : List (String × Bool)),
      env.fileExists = env2.fileExists →
      script env argv order = script env2 argv order2 ∧
      (script env argv order = 0 ∨ script env argv order = 1) ∧
      (script env argv order = 0 ↔
        ∃ s vp, argv = [s, vp] ∧ env.fileExists vp = true) := by
  intro env env2 argv order order2 hfs
  rcases argv with _ | ⟨s0, _ | ⟨vp, _ | rest⟩⟩
  · exact ⟨rfl, Or.inr rfl, by simp [script]⟩
  · exact ⟨rfl, Or.inr rfl, by simp [script]⟩
  · by_cases hex : env.fileExists vp = true
    · have hex2 : env2.fileExists vp = true := by rw [← hfs]; exact hex
      refine ⟨?_, Or.inl ?_, ?_⟩
      · simp [script, main, hex, hex2]
      · simp [script, main, hex]
      · constructor
        · intro _
          exact ⟨s0, vp, rfl, hex⟩
        · intro _
          simp [script, main, hex]
    · have hexf : env.fileExists vp = false := by
        cases henv : env.fileExists vp
        · rfl
        · exact absurd henv hex
      have hexf2 : env2.fileExists vp = false := by rw [← hfs]; exact hexf
      refine ⟨?_, Or.inr ?_, ?_⟩
      · simp [script, main, hexf, hexf2]
      · simp [script, main, hexf]
      · constructor
        · intro h0
          rw [show script env [s0, vp] order = 1 by simp [script, main, hexf]] at h0
          cases h0
        · rintro ⟨s, vp2, heq, hfe⟩
          injection heq with h1 h2
          injection h2 with h2 _
          subst h2
          rw [hfe] at hexf
          cases hexf
  · exact ⟨rfl, Or.inr rfl, by simp [script]⟩

theorem exit_codes_c6_witness :
    envAllOk.fileExists = envOneFfmpegFail.fileExists ∧
    script envAllOk ["script.py", "v"] [] = script envOneFfmpegFail ["script.py", "v"] [] ∧
    script envAllOk ["script.py", "v"] [] = 0 :=
  ⟨rfl,
   (exit_codes_c6 envAllOk envOneFfmpegFail ["script.py", "v"] [] [] rfl).1,
   (exit_codes_c6 envAllOk envOneFfmpegFail ["script.py", "v"] [] [] rfl).2.2.mpr
     ⟨"script.py", "v", rfl, rfl⟩⟩

/-- C8.  Unknown-sentinel propagation: a failed duration or frame-rate
probe (tool error, unparsable output, wrong part count, or a zero
denominator in the `num/den` string) yields the `None` sentinel without
propagating an exception, and the ffmpeg command is still built, with the
stringified sentinel `"None"` sitting right after the `-r` and `-t`
flags; `transcode_and_overlay` then runs exactly that command. -/
theorem unknown_sentinel_c8 :
    ∀ (probe : List String → Except String String) (vp : String),
      (∀ e, probe (ffprobe_duration_cmd vp) = Except.error e →
        get_duration probe vp = none) ∧
      (∀ out, probe (ffprobe_duration_cmd vp) = Except.ok out →
        parsePyFloatChars (trimChars out.data) = none → get_duration probe vp = none) ∧
      (∀ e, probe (ffprobe_frame_rate_cmd vp) = Except.error e →
        get_frame_rate probe vp = none) ∧
      (∀ out, probe (ffprobe_frame_rate_cmd vp) = Except.ok out →
        (splitOnChar '/' (trimChars out.data)).mapM parsePyIntChars = none →
        get_frame_rate probe vp = none) ∧
      (∀ out (num : ℤ), probe (ffprobe_frame_rate_cmd vp) = Except.ok out →
        (splitOnChar '/' (trimChars out.data)).mapM parsePyIntChars = some [num, 0] →
        get_frame_rate probe vp = none) ∧
      (∀ (self : VideoProcessor) (w h : ℤ) (cf out : String),
        self.duration = none → self.frame_rate = none →
        ["-r", "None"] <:+: ffmpeg_cmd self w h cf out ∧
        ["-t", "None"] <:+: ffmpeg_cmd self w h cf out) ∧
      (∀ (env : Env) (self : VideoProcessor) (res dims : String) (hdr : Bool) (w h : ℤ),
        (res, dims) ∈ resolutions →
        (splitOnChar 'x' dims.data).mapM parsePyIntChars = some [w, h] →
        transcode_and_overlay env self res hdr =
          if env.ffmpegExit (ffmpeg_cmd self w h
              (draw_circle (overlaySpec w h hdr).color (overlaySpec w h hdr).x
                (overlaySpec w h hdr).y (overlaySpec w h hdr).radius)
              (output_path self.video_path res hdr)) ≠ 0
          then none
          else some (output_path self.video_path res hdr)) := by
  intro probe vp
  refine ⟨?_, ?_, ?_, ?_, ?_, ?_, ?_⟩
  · intro e he
    simp [get_duration, he]
  · intro out ho hp
    simp [get_duration, ho, hp]
  · intro e he
    simp [get_frame_rate, he]
  · intro out ho hp
    unfold get_frame_rate
    rw [ho]
    dsimp only
    rw [hp]
  · intro out num ho hp
    unfold get_frame_rate
    rw [ho]
    dsimp only
    rw [hp]
    simp
  · intro self w h cf out hdur hfr
    constructor
    · exact ⟨["ffmpeg", "-i", self.video_path,
        "-vf", "scale=" ++ toString w ++ ":" ++ toString h ++ "," ++ cf,
        "-c:v", "libx265", "-crf", "28", "-preset", "medium"],
        ["-c:a", "aac", "-b:a", "128k", "-t", pyStrOpt self.duration, out],
        by simp [ffmpeg_cmd, hfr, pyStrOpt]⟩
    · exact ⟨["ffmpeg", "-i", self.video_path,
        "-vf", "scale=" ++ toString w ++ ":" ++ toString h ++ "," ++ cf,
        "-c:v", "libx265", "-crf", "28", "-preset", "medium",
        "-r", pyStrOpt self.frame_rate, "-c:a", "aac", "-b:a", "128k"],
        [out],
        by simp [ffmpeg_cmd, hdur, pyStrOpt]⟩
  · intro env self res dims hdr w h hmem hp
    unfold transcode_and_overlay
    rw [lookup_resolutions hmem]
    dsimp only
    rw [hp]

theorem unknown_sentinel_c8_witness :
    get_duration (fun _ => Except.error "probe failure") "v" = none ∧
    get_frame_rate (fun _ => Except.ok "30/0") "v" = none ∧
    ["-r", "None"] <:+:
      ffmpeg_cmd { video_path := "v", is_hdr := false, duration := none, frame_rate := none }
        640 360 "f" "o" :=
  ⟨(unknown_sentinel_c8 (fun _ => Except.error "probe failure") "v").1 "probe failure" rfl,
   (unknown_sentinel_c8 (fun _ => Except.ok "30/0") "v").2.2.2.2.1 "30/0" 30 rfl (by decide),
   ((unknown_sentinel_c8 (fun _ => Except.error "probe failure") "v").2.2.2.2.2.1
     { video_path := "v", is_hdr := false, duration := none, frame_rate := none }
     640 360 "f" "o" rfl rfl).1⟩

/-- C9.  Output naming: every rendition's output path is
`output/{input basename without extension}_{resolution}_{HDR|SDR}.mp4`,
its fragmented intermediate is `{rendition basename without
extension}-fragmented.mp4` in the same output directory, and distinct
jobs (distinct resolution/HDR pairs) write distinct files. -/
theorem output_naming_c9 :
    ∀ (video_path res : String) (hdr : Bool), res ∈ resolutionNames →
      (output_path video_path res hdr =
        "output/" ++ splitextRootStr (basenameStr video_path) ++ "_" ++ res ++
          (if hdr then "_HDR" else "_SDR") ++ ".mp4") ∧
      (frag_output_path (output_path video_path res hdr) =
        "output/" ++ (splitextRootStr (basenameStr video_path) ++ "_" ++ res ++
          (if hdr then "_HDR" else "_SDR")) ++ "-fragmented.mp4") ∧
      (∀ (res2 : String) (hdr2 : Bool), res2 ∈ resolutionNames →
        (res, hdr) ≠ (res2, hdr2) →
        output_path video_path res hdr ≠ output_path video_path res2 hdr2) := by
  intro vp res hdr hres
  exact ⟨output_path_eq hdr (res_noslash hres),
    frag_of_output_path hdr (res_noslash hres),
    fun res2 hdr2 hm2 hne => output_path_inj hres hm2 hne⟩

theorem output_naming_c9_witness :
    "360p" ∈ resolutionNames ∧
    output_path "clips/movie.mkv" "360p" true =
      "output/" ++ splitextRootStr (basenameStr "clips/movie.mkv") ++ "_" ++ "360p" ++
        (if true then "_HDR" else "_SDR") ++ ".mp4" :=
  ⟨by decide, (output_naming_c9 "clips/movie.mkv" "360p" true (by decide)).1⟩

end VideoOverlayer
